import Mathlib

/-!
Verification of `src/server/content-server.py` (videoEncryption repository).

The server logic is embedded shallowly:
* Python `str` values are `List Char`; file bodies are `List Nat` (bytes).
* `wfile.write` calls are collected into a `List (List Nat)` of writes; a
  possible client disconnect (BrokenPipeError / ConnectionAbortedError /
  ConnectionResetError raised by some write) is modelled by an optional
  budget: `some k` means the first `k` write calls succeed and the next one
  raises; `none` means the client never disconnects.
* `send_error c` responses carry no file bytes and are modelled as
  `HandlerResult.error c` (the stdlib error page is not file content).
-/

namespace ContentServer

/-- ASCII whitespace stripped by Python `int(str)` (via `str.strip`). -/
def pyWS (c : Char) : Bool :=
  c = ' ' || c = '\t' || c = '\n' || c = '\r' || c = '\x0B' || c = '\x0C'

/-- Strip leading and trailing whitespace, as Python `int()` does before
parsing. -/
def stripWS (l : List Char) : List Char :=
  ((l.dropWhile pyWS).reverse.dropWhile pyWS).reverse

/-- Decimal digits after the first one, allowing single underscores between
digits, as Python `int()` accepts (`1_000`).  `acc` is the value of the
digits already consumed. -/
def digitsTail (acc : Nat) : List Char → Option Nat
  | [] => some acc
  | '_' :: c :: rest =>
      if c.isDigit then digitsTail (acc * 10 + (c.toNat - 48)) rest else none
  | ['_'] => none
  | c :: rest =>
      if c.isDigit then digitsTail (acc * 10 + (c.toNat - 48)) rest else none

/-- A nonempty run of decimal digits (with Python's underscore rule). -/
def parseDigits : List Char → Option Nat
  | [] => none
  | c :: rest => if c.isDigit then digitsTail (c.toNat - 48) rest else none

/-- Python `int(s)` on a `str`: strip whitespace, optional sign, decimal
digits (ASCII; underscores between digits allowed).  `none` models a raised
`ValueError`. -/
def pyInt (s : List Char) : Option Int :=
  match stripWS s with
  | '+' :: rest => (parseDigits rest).map Int.ofNat
  | '-' :: rest => (parseDigits rest).map (fun n => -(Int.ofNat n))
  | rest => (parseDigits rest).map Int.ofNat

/-- Python `s.split(sep, 1)` when `sep` occurs in `s`: the part before the
first occurrence and the part after it.  (Only used under the guard
`'-' in ranges`, exactly as in the source.) -/
def splitFirst (sep : Char) : List Char → List Char × List Char
  | [] => ([], [])
  | c :: rest =>
      if c = sep then ([], rest)
      else
        let p := splitFirst sep rest
        (c :: p.1, p.2)

/-- Outcome of the header-parsing phase of `handle_range_request`
(lines 111-125 of content-server.py). -/
inductive ParseOutcome where
  /-- `not range_header.startswith('bytes=')` → `send_error(416)`. -/
  | notBytes : ParseOutcome
  /-- `'-' not in ranges` → `send_error(416)`. -/
  | noDash : ParseOutcome
  /-- `int(...)` raised `ValueError`, caught by the outer
  `except Exception` → `send_error(500)`. -/
  | valueError : ParseOutcome
  /-- `start`, `end` computed (defaults applied). -/
  | parsed (start endPos : Int) : ParseOutcome
deriving DecidableEq, Repr

/-- Lines 111-125 of `handle_range_request`: prefix check, first
comma-separated range, dash check, `int()` with defaults
(`start = 0` when the start token is empty, `end = file_size - 1` when the
end token is empty). -/
def parseRange (rangeHeader : List Char) (fileSize : Int) : ParseOutcome :=
  if ("bytes=").toList.isPrefixOf rangeHeader then
    let ranges := (rangeHeader.drop 6).takeWhile (fun c => c ≠ ',')
    if ranges.contains '-' then
      let p := splitFirst '-' ranges
      let startV : Option Int := if p.1 = [] then some 0 else pyInt p.1
      let endV : Option Int := if p.2 = [] then some (fileSize - 1) else pyInt p.2
      match startV, endV with
      | some s, some e => .parsed s e
      | _, _ => .valueError
    else .noDash
  else .notBytes

/-- `f.seek(pos)` followed by `f.read(n)`: the next `n` bytes of the file
(fewer at EOF). -/
def readAt (file : List Nat) (pos n : Nat) : List Nat :=
  (file.drop pos).take n

/-- Decrement a disconnect budget after a successful write.  `bud = some k`
means the next `k` write calls succeed and the one after raises a
disconnect; `bud = none` means the client never disconnects. -/
def budStep : Option Nat → Option Nat
  | some (k + 1) => some k
  | b => b

/-- The send loop of `handle_range_request` (lines 145-163): seek to `pos`,
then read chunks of `min 8192 remaining` and write them until `remaining`
hits 0 or a read returns no data.  On a disconnect (budget `some 0` at a
write) the `except` clause returns at once.  Returns the successfully
written chunks and whether a disconnect happened.  `fuel` bounds the
number of loop iterations; since every iteration consumes at least one
byte of `remaining`, any `fuel > remaining` is exact (the fuel-0 branch is
unreachable from the call site, which passes `remaining + 1`). -/
def sendChunksB (file : List Nat) :
    Nat → Nat → Nat → Option Nat → List (List Nat) × Bool
  | 0, _, _, _ => ([], false)
  | _ + 1, _, 0, _ => ([], false)
  | fuel + 1, pos, remaining, bud =>
    let chunk := readAt file pos (min 8192 remaining)
    if chunk = [] then ([], false)
    else if bud = some 0 then ([], true)
    else
      let p := sendChunksB file fuel (pos + chunk.length)
        (remaining - chunk.length) (budStep bud)
      (chunk :: p.1, p.2)

/-- The send loop of `handle_normal_request` for files over 1 MiB
(lines 188-197): read 64 KiB chunks until a read returns no data, writing
each.  Disconnect budget as in `sendChunksB`; `fuel` bounds iterations
(any `fuel > file.length` is exact, the call site passes
`file.length + 1`). -/
def sendAllB (file : List Nat) :
    Nat → Nat → Option Nat → List (List Nat) × Bool
  | 0, _, _ => ([], false)
  | fuel + 1, pos, bud =>
    let chunk := readAt file pos 65536
    if chunk = [] then ([], false)
    else if bud = some 0 then ([], true)
    else
      let p := sendAllB file fuel (pos + chunk.length) (budStep bud)
      (chunk :: p.1, p.2)

/-- The response produced by one of the two file-serving handlers. -/
inductive HandlerResult where
  /-- `send_error code`: status line only, no file bytes. -/
  | error (code : Nat) : HandlerResult
  /-- `send_response status` with a `Content-Length` header, an optional
  `Content-Range: bytes start-end/size` header (carried as the triple
  `(start, end, size)`), the write calls that succeeded, and whether the
  client disconnected mid-transfer. -/
  | ok (status : Nat) (contentLength : Int)
      (contentRange : Option (Int × Int × Int))
      (writes : List (List Nat)) (disconnected : Bool) : HandlerResult
deriving DecidableEq, Repr

/-- `handle_range_request` (lines 107-171).  `file_size` is
`os.path.getsize`, i.e. `file.length` in the model.  Parse errors give 416;
a `ValueError` from `int()` is caught by the outer handler and answered
with 500; an unsatisfiable range gives 416; otherwise a 206 with
`Content-Length = end - start + 1`, a `Content-Range` triple, and the body
streamed by `sendChunksB` from `start`. -/
def handleRangeRequest (file : List Nat) (rangeHeader : List Char)
    (bud : Option Nat) : HandlerResult :=
  let fileSize : Int := file.length
  match parseRange rangeHeader fileSize with
  | .notBytes => .error 416
  | .noDash => .error 416
  | .valueError => .error 500
  | .parsed s e =>
    if s ≥ fileSize ∨ e ≥ fileSize ∨ s > e then .error 416
    else
      let contentLength := e - s + 1
      let p := sendChunksB file (contentLength.toNat + 1) s.toNat contentLength.toNat bud
      .ok 206 contentLength (some (s, e, fileSize)) p.1 p.2

/-- `handle_normal_request` (lines 173-212): 200 with
`Content-Length = file_size`; files over 1 MiB are streamed in 64 KiB
chunks, smaller files are sent with a single `wfile.write(f.read())`. -/
def handleNormalRequest (file : List Nat) (bud : Option Nat) : HandlerResult :=
  let fileSize : Int := file.length
  if file.length > 1024 * 1024 then
    let p := sendAllB file (file.length + 1) 0 bud
    .ok 200 fileSize none p.1 p.2
  else
    match bud with
    | some 0 => .ok 200 fileSize none [] true
    | _ => .ok 200 fileSize none [file] false

/-- `path.endswith(('.mp4', '.webm', '.mkv'))`. -/
def isVideoExt (p : List Char) : Bool :=
  (".mp4").toList.isSuffixOf p || (".webm").toList.isSuffixOf p
    || (".mkv").toList.isSuffixOf p

/-- `serve_file_with_range` (lines 88-105): range handling only when a
`Range` header is present (Python truthiness: `None` and the empty string
are falsy) and the path has a recognized video extension. -/
def serveFileWithRange (filePath : List Char) (file : List Nat)
    (rangeHeader : Option (List Char)) (bud : Option Nat) : HandlerResult :=
  match rangeHeader with
  | some h =>
      if h ≠ [] ∧ isVideoExt filePath then handleRangeRequest file h bud
      else handleNormalRequest file bud
  | none => handleNormalRequest file bud

/-- C0 controls and the space character (code points up to 32), stripped
from the front of the URL by `urllib.parse.urlsplit` (CPython 3.11). -/
def c0ControlOrSpace (c : Char) : Bool := c.toNat ≤ 32

/-- Tab, CR and LF, removed anywhere in the URL by `urlsplit`
(CPython 3.11). -/
def unsafeURLByte (c : Char) : Bool := c = '\t' || c = '\r' || c = '\n'

/-- Characters allowed after the first one in a URL scheme
(`scheme_chars` in `urllib.parse`). -/
def schemeChar (c : Char) : Bool :=
  c.isAlpha || c.isDigit || c = '+' || c = '-' || c = '.'

/-- The schemes for which `urlparse` splits `;params` off the last path
segment (`uses_params` in CPython 3.11); the empty scheme — the case of an
ordinary request target — is among them. -/
def usesParams : List (List Char) :=
  [[], ("ftp").toList, ("hdl").toList, ("prospero").toList, ("http").toList,
    ("imap").toList, ("https").toList, ("shttp").toList, ("rtsp").toList,
    ("rtsps").toList, ("rtspu").toList, ("sip").toList, ("sips").toList,
    ("mms").toList, ("sftp").toList, ("tel").toList]

/-- `urlsplit`'s scheme handling: when the text before the first `:` is a
well-formed scheme (an ASCII letter followed by scheme characters), return
it lowercased together with the remainder; otherwise the scheme is empty
and the URL is left whole. -/
def splitScheme (url : List Char) : List Char × List Char :=
  if url.contains ':' then
    match splitFirst ':' url with
    | (before, after) =>
      match before with
      | [] => ([], url)
      | c0 :: restS =>
        if c0.isAlpha && restS.all schemeChar then
          ((c0 :: restS).map Char.toLower, after)
        else ([], url)
  else ([], url)

/-- `urlsplit`'s netloc handling: after a leading `//`, the netloc runs to
the next `/`, `?` or `#`, and the path starts at that delimiter. -/
def splitNetloc (url : List Char) : List Char × List Char :=
  match url with
  | '/' :: '/' :: rest =>
    (rest.takeWhile (fun c => ¬(c = '/' ∨ c = '?' ∨ c = '#')),
      rest.dropWhile (fun c => ¬(c = '/' ∨ c = '?' ∨ c = '#')))
  | _ => ([], url)

/-- `_splitparams` (CPython 3.11): drop `;params` from the last path
segment — when the path has no `/`, from the whole of it.  `urlparse` only
calls this when the path contains a `;`. -/
def splitParams (p : List Char) : List Char :=
  if p.contains '/' then
    let seg := (p.reverse.takeWhile (fun c => c ≠ '/')).reverse
    if seg.contains ';' then
      p.take (p.length - seg.length) ++ seg.takeWhile (fun c => c ≠ ';')
    else p
  else p.takeWhile (fun c => c ≠ ';')

/-- `urllib.parse.urlparse(self.path).path` as computed by CPython 3.11:
strip leading C0 controls/space, remove tab/CR/LF, split off a well-formed
`scheme:`, absorb a `//netloc`, drop the fragment (`#...`) and the query
(`?...`), then split `;params` off the last segment when the scheme uses
params.  No percent-decoding happens anywhere.  The inputs on which
`urlparse` raises `ValueError` instead of returning — a netloc with
brackets, or a non-ASCII netloc altered by normalization — are outside
this model; claims that quantify over raw paths exclude them by
hypothesis. -/
def urlPath (raw : List Char) : List Char :=
  let url := (raw.dropWhile c0ControlOrSpace).filter (fun c => !unsafeURLByte c)
  let sp := splitScheme url
  let p2 := (splitNetloc sp.2).2
  let p := (p2.takeWhile (fun c => c ≠ '#')).takeWhile (fun c => c ≠ '?')
  if sp.1 ∈ usesParams ∧ p.contains ';' then splitParams p else p

/-- Python `s.lstrip('/')`: drop every leading slash. -/
def lstripSlash (l : List Char) : List Char :=
  l.dropWhile (fun c => c = '/')

/-- Python `needle in hay` on `str`: `needle` occurs as a contiguous
substring of `hay`. -/
def containsSub (needle : List Char) : List Char → Bool
  | [] => needle.isPrefixOf []
  | c :: rest => needle.isPrefixOf (c :: rest) || containsSub needle rest

/-- The filesystem visible to the handler, keyed by the path relative to
the content root (`os.getcwd()`); `content` is the byte content of files
(`os.path.getsize` is its length). -/
structure Fs where
  isFile : List Char → Bool
  isDir : List Char → Bool
  content : List Char → List Nat

/-- Outcome of `do_GET` (lines 49-86). -/
inductive GetResult where
  /-- `send_error(403, "Access denied")`, issued before any filesystem
  call. -/
  | forbidden : GetResult
  /-- `send_error(404, ...)`. -/
  | notFound : GetResult
  /-- `list_directory` fallback for a directory without `index.html`. -/
  | listing (dirPath : List Char) : GetResult
  /-- `serve_file_with_range` ran on this file. -/
  | served (filePath : List Char) (r : HandlerResult) : GetResult
deriving DecidableEq, Repr

/-- `do_GET` (lines 49-86): extract the URL path, strip leading slashes,
reject any path containing `..` (no filesystem access: the result does not
depend on `fs`), map the empty path to `index.html`, then dispatch on the
filesystem.  `rangeHeader` is the request's `Range` header
(`self.headers.get('Range')`). -/
def doGet (rawPath : List Char) (fs : Fs) (rangeHeader : Option (List Char))
    (bud : Option Nat) : GetResult :=
  let filePath := lstripSlash (urlPath rawPath)
  if containsSub (("..").toList) filePath then .forbidden
  else
    let fp := if filePath = [] ∨ filePath = ("/").toList then ("index.html").toList
      else filePath
    if fs.isFile fp then
      .served fp (serveFileWithRange fp (fs.content fp) rangeHeader bud)
    else if fs.isDir fp then
      let indexPath := fp ++ ("/index.html").toList
      if fs.isFile indexPath then
        .served indexPath (serveFileWithRange indexPath (fs.content indexPath) rangeHeader bud)
      else .listing fp
    else .notFound

/-- Value of an ASCII hex digit. -/
def hexVal (c : Char) : Option Nat :=
  if '0' ≤ c ∧ c ≤ '9' then some (c.toNat - 48)
  else if 'a' ≤ c ∧ c ≤ 'f' then some (c.toNat - 87)
  else if 'A' ≤ c ∧ c ≤ 'F' then some (c.toNat - 55)
  else none

/-- Percent-decoding of a URL path (`urllib.parse.unquote` restricted to
single-byte escapes): `%xy` with two hex digits becomes the byte `xy`,
anything else is copied.  The server never calls this; it is only used to
state claims that speak about the decoded form of a path. -/
def percentDecode : List Char → List Char
  | '%' :: h1 :: h2 :: rest =>
      match hexVal h1, hexVal h2 with
      | some a, some b => Char.ofNat (16 * a + b) :: percentDecode rest
      | _, _ => '%' :: percentDecode (h1 :: h2 :: rest)
  | c :: rest => c :: percentDecode rest
  | [] => []

/-- A filesystem with no entries at all (used as a concrete witness). -/
def fsEmpty : Fs where
  isFile := fun _ => false
  isDir := fun _ => false
  content := fun _ => []

/-- A filesystem holding one 1-byte file at the undecoded traversal path
`%2e%2e/x` (used as a concrete witness). -/
def fsHidden : Fs where
  isFile := fun p => decide (p = ("%2e%2e/x").toList)
  isDir := fun _ => false
  content := fun _ => [9]

/-- A filesystem holding a 2-byte `index.html` at the content root (used
as a concrete witness). -/
def fsIndex : Fs where
  isFile := fun p => decide (p = ("index.html").toList)
  isDir := fun _ => false
  content := fun p => if p = ("index.html").toList then [7, 8] else []

/-- Canonical decimal rendering of a natural number, most significant
digit first. -/
def natToChars (n : Nat) : List Char :=
  if n < 10 then [Char.ofNat (48 + n)]
  else natToChars (n / 10) ++ [Char.ofNat (48 + n % 10)]
termination_by n
decreasing_by omega

/-- A `Range` header of the canonical form `bytes=<start>-<end>` with both
endpoints written in decimal. -/
def mkRangeHeader (s e : Nat) : List Char :=
  ("bytes=").toList ++ (natToChars s ++ '-' :: natToChars e)

/-! ### Lemmas about the send loops -/

theorem budStep_none : budStep none = none := rfl

theorem readAt_length (file : List Nat) (pos n : Nat) :
    (readAt file pos n).length = min n (file.length - pos) := by
  simp [readAt]

theorem readAt_ne_nil {file : List Nat} {pos n : Nat}
    (h : readAt file pos n ≠ []) : pos < file.length ∧ 0 < n := by
  constructor
  · by_contra hp
    exact h (by simp [readAt, List.drop_eq_nil_of_le (Nat.le_of_not_lt hp)])
  · by_contra hn
    have : n = 0 := Nat.eq_zero_of_not_pos hn
    exact h (by simp [readAt, this])

theorem sendChunksB_fuel_zero (file : List Nat) (pos rem : Nat)
    (bud : Option Nat) : sendChunksB file 0 pos rem bud = ([], false) := rfl

theorem sendChunksB_rem_zero (file : List Nat) (fuel pos : Nat)
    (bud : Option Nat) : sendChunksB file (fuel + 1) pos 0 bud = ([], false) :=
  rfl

theorem sendChunksB_step (file : List Nat) (fuel pos r : Nat)
    (bud : Option Nat) :
    sendChunksB file (fuel + 1) pos (r + 1) bud =
      if readAt file pos (min 8192 (r + 1)) = [] then ([], false)
      else if bud = some 0 then ([], true)
      else
        ((readAt file pos (min 8192 (r + 1)))
            :: (sendChunksB file fuel
                  (pos + (readAt file pos (min 8192 (r + 1))).length)
                  (r + 1 - (readAt file pos (min 8192 (r + 1))).length)
                  (budStep bud)).1,
          (sendChunksB file fuel
              (pos + (readAt file pos (min 8192 (r + 1))).length)
              (r + 1 - (readAt file pos (min 8192 (r + 1))).length)
              (budStep bud)).2) := rfl

/-- Without a disconnect budget the range send loop never disconnects. -/
theorem sendChunksB_none_disc (file : List Nat) :
    ∀ fuel pos remaining,
      (sendChunksB file fuel pos remaining none).2 = false := by
  intro fuel
  induction fuel with
  | zero => intro pos remaining; simp [sendChunksB_fuel_zero]
  | succ fuel ih =>
    intro pos remaining
    match remaining with
    | 0 => simp [sendChunksB_rem_zero]
    | r + 1 =>
      rw [sendChunksB_step]
      split
      · rfl
      · split
        · simp_all
        · simpa [budStep] using ih _ _

/-- The bytes written by the range send loop are exactly the next
`remaining` bytes of the file from `pos`, provided the fuel exceeds
`remaining` (as it does at the call site). -/
theorem sendChunksB_none_flatten (file : List Nat) :
    ∀ fuel pos remaining, remaining < fuel →
      ((sendChunksB file fuel pos remaining none).1).flatten
        = (file.drop pos).take remaining := by
  intro fuel
  induction fuel with
  | zero => omega
  | succ fuel ih =>
    intro pos remaining hlt
    match remaining with
    | 0 => simp [sendChunksB_rem_zero]
    | r + 1 =>
      rw [sendChunksB_step]
      split
      · rename_i hc
        have hdrop : file.drop pos = [] := by
          by_contra hne
          have hlen : 0 < (file.drop pos).length := List.length_pos.mpr hne
          have h2 : (readAt file pos (min 8192 (r + 1))).length = 0 := by
            simp [hc]
          rw [readAt_length] at h2
          simp [List.length_drop] at hlen
          omega
        simp [hdrop]
      · split
        · simp_all
        · rename_i hc _
          have hclen : (readAt file pos (min 8192 (r + 1))).length
              = min (min 8192 (r + 1)) (file.length - pos) := readAt_length ..
          have hpos : 0 < (readAt file pos (min 8192 (r + 1))).length :=
            List.length_pos.mpr hc
          rw [budStep_none]
          simp only [List.flatten_cons]
          rw [ih _ _ (by omega)]
          have hchunk : readAt file pos (min 8192 (r + 1))
              = (file.drop pos).take
                  ((readAt file pos (min 8192 (r + 1))).length) := by
            conv_lhs => rw [readAt]
            rw [List.take_eq_take]
            rw [readAt_length, List.length_drop]
            omega
          generalize hch : readAt file pos (min 8192 (r + 1)) = chunk
            at hclen hpos hchunk ⊢
          nth_rewrite 1 [hchunk]
          rw [show List.drop (pos + chunk.length) file
                = List.drop chunk.length (List.drop pos file) by
              rw [List.drop_drop, Nat.add_comm],
            ← List.take_add]
          congr 1
          omega

/-- Every write of the range send loop is nonempty and at most 8 KiB. -/
theorem sendChunksB_sizes (file : List Nat) :
    ∀ fuel pos remaining bud, ∀ w ∈ (sendChunksB file fuel pos remaining bud).1,
      0 < w.length ∧ w.length ≤ 8192 := by
  intro fuel
  induction fuel with
  | zero => intro pos remaining bud w hw; simp [sendChunksB_fuel_zero] at hw
  | succ fuel ih =>
    intro pos remaining bud w hw
    match remaining with
    | 0 => simp [sendChunksB_rem_zero] at hw
    | r + 1 =>
      rw [sendChunksB_step] at hw
      split at hw
      · simp at hw
      · split at hw
        · simp at hw
        · rename_i hc _
          simp only [List.mem_cons] at hw
          rcases hw with hw | hw
          · subst hw
            refine ⟨List.length_pos.mpr hc, ?_⟩
            rw [readAt_length]
            omega
          · exact ih _ _ _ _ hw

/-- The range send loop only writes when `remaining` is positive. -/
theorem sendChunksB_ne_nil_pos (file : List Nat) (fuel pos remaining : Nat)
    (bud : Option Nat) (h : (sendChunksB file fuel pos remaining bud).1 ≠ []) :
    0 < remaining ∧ readAt file pos (min 8192 remaining) ≠ [] := by
  match fuel, remaining with
  | 0, _ => simp [sendChunksB_fuel_zero] at h
  | fuel + 1, 0 => simp [sendChunksB_rem_zero] at h
  | fuel + 1, r + 1 =>
    rw [sendChunksB_step] at h
    split at h
    · simp at h
    · rename_i hc
      exact ⟨Nat.succ_pos r, hc⟩

/-- Within a range that fits inside the file, every write except possibly
the last is a full 8 KiB chunk. -/
theorem sendChunksB_dropLast_full (file : List Nat) :
    ∀ fuel pos remaining bud, pos + remaining ≤ file.length →
      ∀ w ∈ ((sendChunksB file fuel pos remaining bud).1).dropLast,
        w.length = 8192 := by
  intro fuel
  induction fuel with
  | zero => intro pos remaining bud hfit w hw; simp [sendChunksB_fuel_zero] at hw
  | succ fuel ih =>
    intro pos remaining bud hfit w hw
    match remaining with
    | 0 => simp [sendChunksB_rem_zero] at hw
    | r + 1 =>
      rw [sendChunksB_step] at hw
      split at hw
      · simp at hw
      · split at hw
        · simp at hw
        · rename_i hc _
          have hclen : (readAt file pos (min 8192 (r + 1))).length
              = min (min 8192 (r + 1)) (file.length - pos) := readAt_length ..
          simp only at hw
          rcases hrest : (sendChunksB file fuel
              (pos + (readAt file pos (min 8192 (r + 1))).length)
              (r + 1 - (readAt file pos (min 8192 (r + 1))).length)
              (budStep bud)).1 with _ | ⟨w2, ws2⟩
          · rw [hrest] at hw
            simp at hw
          · rw [hrest] at hw
            rw [List.dropLast_cons_of_ne_nil (List.cons_ne_nil w2 ws2)] at hw
            simp only [List.mem_cons] at hw
            rcases hw with hw | hw
            · subst hw
              have hne : (sendChunksB file fuel
                  (pos + (readAt file pos (min 8192 (r + 1))).length)
                  (r + 1 - (readAt file pos (min 8192 (r + 1))).length)
                  (budStep bud)).1 ≠ [] := by rw [hrest]; simp
              have hpos2 := sendChunksB_ne_nil_pos file _ _ _ _ hne
              omega
            · have := ih (pos + (readAt file pos (min 8192 (r + 1))).length)
                (r + 1 - (readAt file pos (min 8192 (r + 1))).length)
                (budStep bud) (by omega) w (by rw [hrest]; exact hw)
              exact this

/-- Running the range send loop with a disconnect budget of `k` writes
yields exactly the first `k` chunks of the unlimited run, and disconnects
exactly when the unlimited run has more than `k` chunks. -/
theorem sendChunksB_budget (file : List Nat) :
    ∀ fuel pos remaining k,
      sendChunksB file fuel pos remaining (some k)
        = (((sendChunksB file fuel pos remaining none).1).take k,
            decide (k < ((sendChunksB file fuel pos remaining none).1).length)) := by
  intro fuel
  induction fuel with
  | zero => intro pos remaining k; simp [sendChunksB_fuel_zero]
  | succ fuel ih =>
    intro pos remaining k
    match remaining with
    | 0 => simp [sendChunksB_rem_zero]
    | r + 1 =>
      rw [sendChunksB_step, sendChunksB_step]
      split
      · simp
      · rename_i hc
        match k with
        | 0 => simp
        | k + 1 =>
          simp only [budStep, budStep_none]
          rw [ih]
          simp [List.take_succ_cons, Nat.succ_lt_succ_iff]

theorem sendAllB_fuel_zero (file : List Nat) (pos : Nat) (bud : Option Nat) :
    sendAllB file 0 pos bud = ([], false) := rfl

theorem sendAllB_step (file : List Nat) (fuel pos : Nat) (bud : Option Nat) :
    sendAllB file (fuel + 1) pos bud =
      if readAt file pos 65536 = [] then ([], false)
      else if bud = some 0 then ([], true)
      else
        ((readAt file pos 65536)
            :: (sendAllB file fuel (pos + (readAt file pos 65536).length)
                  (budStep bud)).1,
          (sendAllB file fuel (pos + (readAt file pos 65536).length)
              (budStep bud)).2) := rfl

/-- Without a disconnect budget the whole-file send loop never
disconnects. -/
theorem sendAllB_none_disc (file : List Nat) :
    ∀ fuel pos, (sendAllB file fuel pos none).2 = false := by
  intro fuel
  induction fuel with
  | zero => intro pos; simp [sendAllB_fuel_zero]
  | succ fuel ih =>
    intro pos
    rw [sendAllB_step]
    split
    · rfl
    · split
      · simp_all
      · simpa [budStep] using ih _

/-- The whole-file send loop writes the file from `pos` to its end,
provided the fuel covers the remaining length (as at the call site). -/
theorem sendAllB_none_flatten (file : List Nat) :
    ∀ fuel pos, file.length ≤ pos + fuel →
      ((sendAllB file fuel pos none).1).flatten = file.drop pos := by
  intro fuel
  induction fuel with
  | zero =>
    intro pos hfit
    rw [sendAllB_fuel_zero]
    have hnil : file.drop pos = [] := List.drop_eq_nil_of_le (by omega)
    simp [hnil]
  | succ fuel ih =>
    intro pos hfit
    rw [sendAllB_step]
    split
    · rename_i hc
      have h2 : (readAt file pos 65536).length = 0 := by simp [hc]
      rw [readAt_length] at h2
      have hnil : file.drop pos = [] := List.drop_eq_nil_of_le (by omega)
      simp [hnil]
    · split
      · simp_all
      · rename_i hc _
        have hclen : (readAt file pos 65536).length
            = min 65536 (file.length - pos) := readAt_length ..
        have hpos : 0 < (readAt file pos 65536).length := List.length_pos.mpr hc
        rw [budStep_none]
        simp only [List.flatten_cons]
        rw [ih _ (by omega)]
        have hchunk : readAt file pos 65536
            = (file.drop pos).take ((readAt file pos 65536).length) := by
          conv_lhs => rw [readAt]
          rw [List.take_eq_take]
          rw [readAt_length, List.length_drop]
          omega
        generalize hch : readAt file pos 65536 = chunk at hclen hpos hchunk ⊢
        nth_rewrite 1 [hchunk]
        rw [show List.drop (pos + chunk.length) file
              = List.drop chunk.length (List.drop pos file) by
            rw [List.drop_drop, Nat.add_comm]]
        rw [List.take_append_drop]

/-- Every write of the whole-file send loop is nonempty and at most
64 KiB. -/
theorem sendAllB_sizes (file : List Nat) :
    ∀ fuel pos bud, ∀ w ∈ (sendAllB file fuel pos bud).1,
      0 < w.length ∧ w.length ≤ 65536 := by
  intro fuel
  induction fuel with
  | zero => intro pos bud w hw; simp [sendAllB_fuel_zero] at hw
  | succ fuel ih =>
    intro pos bud w hw
    rw [sendAllB_step] at hw
    split at hw
    · simp at hw
    · split at hw
      · simp at hw
      · rename_i hc _
        simp only [List.mem_cons] at hw
        rcases hw with hw | hw
        · subst hw
          refine ⟨List.length_pos.mpr hc, ?_⟩
          rw [readAt_length]
          omega
        · exact ih _ _ _ hw

/-- The whole-file send loop writes nothing once `pos` is at or past the
end of the file. -/
theorem sendAllB_ne_nil_pos (file : List Nat) (fuel pos : Nat)
    (bud : Option Nat) (h : (sendAllB file fuel pos bud).1 ≠ []) :
    pos < file.length := by
  match fuel with
  | 0 => simp [sendAllB_fuel_zero] at h
  | fuel + 1 =>
    rw [sendAllB_step] at h
    split at h
    · simp at h
    · rename_i hc
      exact (readAt_ne_nil hc).1

/-- Every write of the whole-file send loop except possibly the last is a
full 64 KiB chunk. -/
theorem sendAllB_dropLast_full (file : List Nat) :
    ∀ fuel pos bud, ∀ w ∈ ((sendAllB file fuel pos bud).1).dropLast,
      w.length = 65536 := by
  intro fuel
  induction fuel with
  | zero => intro pos bud w hw; simp [sendAllB_fuel_zero] at hw
  | succ fuel ih =>
    intro pos bud w hw
    rw [sendAllB_step] at hw
    split at hw
    · simp at hw
    · split at hw
      · simp at hw
      · rename_i hc _
        have hclen : (readAt file pos 65536).length
            = min 65536 (file.length - pos) := readAt_length ..
        simp only at hw
        rcases hrest : (sendAllB file fuel (pos + (readAt file pos 65536).length)
            (budStep bud)).1 with _ | ⟨w2, ws2⟩
        · rw [hrest] at hw
          simp at hw
        · rw [hrest] at hw
          rw [List.dropLast_cons_of_ne_nil (List.cons_ne_nil w2 ws2)] at hw
          simp only [List.mem_cons] at hw
          rcases hw with hw | hw
          · subst hw
            have hne : (sendAllB file fuel (pos + (readAt file pos 65536).length)
                (budStep bud)).1 ≠ [] := by rw [hrest]; simp
            have hpos2 := sendAllB_ne_nil_pos file _ _ _ hne
            omega
          · exact ih (pos + (readAt file pos 65536).length) (budStep bud) w
              (by rw [hrest]; exact hw)

/-- Running the whole-file send loop with a disconnect budget of `k`
writes yields exactly the first `k` chunks of the unlimited run, and
disconnects exactly when the unlimited run has more than `k` chunks. -/
theorem sendAllB_budget (file : List Nat) :
    ∀ fuel pos k,
      sendAllB file fuel pos (some k)
        = (((sendAllB file fuel pos none).1).take k,
            decide (k < ((sendAllB file fuel pos none).1).length)) := by
  intro fuel
  induction fuel with
  | zero => intro pos k; simp [sendAllB_fuel_zero]
  | succ fuel ih =>
    intro pos k
    rw [sendAllB_step, sendAllB_step]
    split
    · simp
    · rename_i hc
      match k with
      | 0 => simp
      | k + 1 =>
        simp only [budStep, budStep_none]
        rw [ih]
        simp [List.take_succ_cons, Nat.succ_lt_succ_iff]

/-! ### Lemmas about range-header parsing -/

theorem splitFirst_fst_not_mem (sep : Char) :
    ∀ l : List Char, sep ∉ (splitFirst sep l).1 := by
  intro l
  induction l with
  | nil => simp [splitFirst]
  | cons c rest ih =>
    simp only [splitFirst]
    split
    · simp
    · rename_i h
      simp only [List.mem_cons, not_or]
      exact ⟨fun hs => h hs.symm, ih⟩

theorem splitFirst_append (sep : Char) (a b : List Char) (ha : sep ∉ a) :
    splitFirst sep (a ++ sep :: b) = (a, b) := by
  induction a with
  | nil => simp [splitFirst]
  | cons c rest ih =>
    simp only [List.cons_append, splitFirst]
    rw [if_neg (fun h => ha (by simp [h]))]
    simp only [List.append_eq]
    rw [ih (fun h => ha (List.mem_cons_of_mem _ h))]

theorem mem_of_mem_stripWS {c : Char} {l : List Char} (h : c ∈ stripWS l) :
    c ∈ l := by
  simp only [stripWS, List.mem_reverse] at h
  have h2 := (List.dropWhile_sublist _).subset h
  rw [List.mem_reverse] at h2
  exact (List.dropWhile_sublist _).subset h2

/-- Parsing a token that contains no minus sign can only produce a
non-negative integer (there is nowhere for a sign to come from). -/
theorem pyInt_nonneg {l : List Char} (hm : '-' ∉ l) {v : Int}
    (h : pyInt l = some v) : 0 ≤ v := by
  have hs : '-' ∉ stripWS l := fun hc => hm (mem_of_mem_stripWS hc)
  unfold pyInt at h
  split at h
  · rcases Option.map_eq_some'.mp h with ⟨n, _, rfl⟩
    exact Int.ofNat_zero_le n
  · rename_i heq
    rw [heq] at hs
    simp at hs
  · rcases Option.map_eq_some'.mp h with ⟨n, _, rfl⟩
    exact Int.ofNat_zero_le n

/-- `parseRange` with its local bindings expanded (definitional). -/
theorem parseRange_eq (hdr : List Char) (size : Int) :
    parseRange hdr size =
      if ("bytes=").toList.isPrefixOf hdr then
        if ((hdr.drop 6).takeWhile (fun c => c ≠ ',')).contains '-' then
          match (if (splitFirst '-' ((hdr.drop 6).takeWhile (fun c => c ≠ ','))).1 = []
                  then some 0
                  else pyInt (splitFirst '-' ((hdr.drop 6).takeWhile (fun c => c ≠ ','))).1),
                (if (splitFirst '-' ((hdr.drop 6).takeWhile (fun c => c ≠ ','))).2 = []
                  then some (size - 1)
                  else pyInt (splitFirst '-' ((hdr.drop 6).takeWhile (fun c => c ≠ ','))).2) with
          | some s, some e => ParseOutcome.parsed s e
          | _, _ => ParseOutcome.valueError
        else ParseOutcome.noDash
      else ParseOutcome.notBytes := rfl

theorem isPrefixOf_append_self : ∀ l r : List Char, l.isPrefixOf (l ++ r) = true := by
  intro l r
  induction l with
  | nil => simp
  | cons c cs ih => simp [ih]

/-- Fully explicit description of a parse of `bytes=<a>-<b>`: the start
token defaults to 0 when empty, the end token to `size - 1` when empty,
and otherwise each must parse as a Python `int`. -/
theorem parseRange_explicit (size : Int) (a b : List Char) (sv ev : Int)
    (hdash : '-' ∉ a) (hacomma : ',' ∉ a) (hbcomma : ',' ∉ b)
    (hsa : if a = [] then sv = 0 else pyInt a = some sv)
    (hsb : if b = [] then ev = size - 1 else pyInt b = some ev) :
    parseRange (("bytes=").toList ++ (a ++ '-' :: b)) size = .parsed sv ev := by
  have hpre : (("bytes=").toList).isPrefixOf
      (("bytes=").toList ++ (a ++ '-' :: b)) = true := isPrefixOf_append_self _ _
  have hdrop : (("bytes=").toList ++ (a ++ '-' :: b)).drop 6 = a ++ '-' :: b :=
    List.drop_left' (by decide)
  have htw : (a ++ '-' :: b).takeWhile (fun c => decide (c ≠ ',')) = a ++ '-' :: b := by
    rw [List.takeWhile_eq_self_iff]
    intro x hx
    simp only [List.mem_append, List.mem_cons] at hx
    simp only [decide_eq_true_eq]
    rcases hx with hx | hx | hx
    · exact fun hq => hacomma (hq ▸ hx)
    · subst hx; decide
    · exact fun hq => hbcomma (hq ▸ hx)
  have hcont : (a ++ '-' :: b).contains '-' = true := by
    simp [List.contains_eq_any_beq]
  simp only [parseRange, hpre, if_true, hdrop, htw, hcont,
    splitFirst_append '-' a b hdash]
  by_cases ha : a = []
  · by_cases hb : b = []
    · simp [ha] at hsa
      simp [hb] at hsb
      simp [ha, hb, hsa, hsb]
    · simp [ha] at hsa
      rw [if_neg hb] at hsb
      simp [ha, hb, hsa, hsb]
  · by_cases hb : b = []
    · rw [if_neg ha] at hsa
      simp [hb] at hsb
      simp [ha, hb, hsa, hsb]
    · rw [if_neg ha] at hsa
      rw [if_neg hb] at hsb
      simp [ha, hb, hsa, hsb]

theorem isDigit_ofNat_digit {d : Nat} (h : d < 10) :
    (Char.ofNat (48 + d)).isDigit = true := by
  interval_cases d <;> decide

theorem toNat_ofNat_digit {d : Nat} (h : d < 10) :
    (Char.ofNat (48 + d)).toNat = 48 + d := by
  interval_cases d <;> decide

theorem natToChars_ne_nil (n : Nat) : natToChars n ≠ [] := by
  rw [natToChars]
  split <;> simp

theorem natToChars_digits (n : Nat) : ∀ c ∈ natToChars n, c.isDigit = true := by
  induction n using Nat.strong_induction_on with
  | _ n ih =>
    rw [natToChars]
    split
    · rename_i h
      intro c hc
      simp only [List.mem_singleton] at hc
      exact hc ▸ isDigit_ofNat_digit h
    · rename_i h
      intro c hc
      simp only [List.mem_append, List.mem_singleton] at hc
      rcases hc with hc | hc
      · exact ih (n / 10) (by omega) c hc
      · exact hc ▸ isDigit_ofNat_digit (Nat.mod_lt n (by omega))

theorem natToChars_foldl (n : Nat) :
    ∀ a : Nat, (natToChars n).foldl (fun acc c => acc * 10 + (c.toNat - 48)) a
      = a * 10 ^ (natToChars n).length + n := by
  induction n using Nat.strong_induction_on with
  | _ n ih =>
    intro a
    rw [natToChars]
    split
    · rename_i h
      simp [toNat_ofNat_digit h]
    · rename_i h
      rw [List.foldl_append, List.length_append, ih (n / 10) (by omega) a]
      simp only [List.foldl_cons, List.foldl_nil, List.length_singleton]
      rw [toNat_ofNat_digit (Nat.mod_lt n (by omega))]
      rw [pow_succ]
      have hdm : n / 10 * 10 + n % 10 = n := by omega
      have key : (a * 10 ^ (natToChars (n / 10)).length + n / 10) * 10
            + (48 + n % 10 - 48)
          = a * (10 ^ (natToChars (n / 10)).length * 10)
            + (n / 10 * 10 + n % 10) := by
        ring_nf
        omega
      rw [key, hdm]

/-- Characters produced by `digitsTail` reasoning: on an all-digit list the
underscore branches never fire and the run is a plain left fold. -/
theorem digitsTail_all_digits :
    ∀ (l : List Char) (acc : Nat), (∀ c ∈ l, c.isDigit = true) →
      digitsTail acc l
        = some (l.foldl (fun a c => a * 10 + (c.toNat - 48)) acc) := by
  intro l
  induction l with
  | nil => intro acc _; rfl
  | cons c rest ih =>
    intro acc hd
    have hcd : c.isDigit = true := hd c (List.mem_cons_self c rest)
    have hcu : c ≠ '_' := by
      intro hcu
      rw [hcu] at hcd
      simp at hcd
    rw [digitsTail.eq_def]
    split
    · rename_i heq2
      simp at heq2
    · rename_i heq2
      injection heq2 with h1 h2
      exact absurd h1 hcu
    · rename_i heq2
      injection heq2 with h1 h2
      exact absurd h1 hcu
    · rename_i heq2
      injection heq2 with h1 h2
      subst h1
      subst h2
      rw [if_pos hcd, ih _ (fun x hx => hd x (List.mem_cons_of_mem c hx))]
      simp

theorem parseDigits_all_digits {l : List Char} (hne : l ≠ [])
    (hd : ∀ c ∈ l, c.isDigit = true) :
    parseDigits l
      = some (l.foldl (fun a c => a * 10 + (c.toNat - 48)) 0) := by
  match l with
  | [] => exact absurd rfl hne
  | c :: rest =>
    rw [parseDigits]
    rw [if_pos (hd c (List.mem_cons_self c rest))]
    rw [digitsTail_all_digits rest _ (fun x hx => hd x (List.mem_cons_of_mem c hx))]
    simp

theorem isDigit_not_pyWS {c : Char} (h : c.isDigit = true) : pyWS c = false := by
  revert h
  simp only [Char.isDigit, pyWS]
  intro h
  rcases Bool.and_eq_true .. |>.mp h with ⟨h1, h2⟩
  simp only [decide_eq_true_eq] at h1 h2
  simp only [Bool.or_eq_false_iff]
  refine ⟨⟨⟨⟨⟨?_, ?_⟩, ?_⟩, ?_⟩, ?_⟩, ?_⟩ <;>
    · simp only [decide_eq_false_iff_not]
      intro hq
      subst hq
      simp_all

theorem stripWS_all_not_WS {l : List Char} (h : ∀ c ∈ l, pyWS c = false) :
    stripWS l = l := by
  have hdw : ∀ m : List Char, (∀ c ∈ m, pyWS c = false) → m.dropWhile pyWS = m := by
    intro m hm
    cases m with
    | nil => rfl
    | cons c rest =>
      rw [List.dropWhile_cons]
      rw [hm c (List.mem_cons_self c rest)]
      simp
  unfold stripWS
  rw [hdw l h]
  rw [hdw l.reverse (fun c hc => h c (List.mem_reverse.mp hc))]
  exact List.reverse_reverse l

theorem pyInt_natToChars (n : Nat) : pyInt (natToChars n) = some (n : Int) := by
  have hd := natToChars_digits n
  have hstrip : stripWS (natToChars n) = natToChars n :=
    stripWS_all_not_WS (fun c hc => isDigit_not_pyWS (hd c hc))
  have hpd : parseDigits (natToChars n)
      = some ((natToChars n).foldl (fun a c => a * 10 + (c.toNat - 48)) 0) :=
    parseDigits_all_digits (natToChars_ne_nil n) hd
  rw [natToChars_foldl n 0] at hpd
  simp only [Nat.zero_mul, Nat.zero_add] at hpd
  rw [pyInt.eq_def, hstrip]
  split
  · rename_i heq
    have : ('+' : Char).isDigit = true := hd _ (heq ▸ List.mem_cons_self _ _)
    simp at this
  · rename_i heq
    have : ('-' : Char).isDigit = true := hd _ (heq ▸ List.mem_cons_self _ _)
    simp at this
  · rw [hpd]
    rfl

/-- The canonical header `bytes=<s>-<e>` parses to exactly `(s, e)`. -/
theorem parseRange_mkRangeHeader (s e : Nat) (size : Int) :
    parseRange (mkRangeHeader s e) size = .parsed (s : Int) (e : Int) := by
  have hdashS : '-' ∉ natToChars s := by
    intro hm
    have := natToChars_digits s _ hm
    simp at this
  have hcommaS : ',' ∉ natToChars s := by
    intro hm
    have := natToChars_digits s _ hm
    simp at this
  have hcommaE : ',' ∉ natToChars e := by
    intro hm
    have := natToChars_digits e _ hm
    simp at this
  unfold mkRangeHeader
  exact parseRange_explicit size (natToChars s) (natToChars e) _ _
    hdashS hcommaS hcommaE
    (by rw [if_neg (natToChars_ne_nil s)]; exact pyInt_natToChars s)
    (by rw [if_neg (natToChars_ne_nil e)]; exact pyInt_natToChars e)

/-- A successfully parsed range always has a non-negative start: the start
token sits before the first `-`, so it cannot carry a sign. -/
theorem parseRange_start_nonneg {hdr : List Char} {size s e : Int}
    (h : parseRange hdr size = .parsed s e) : 0 ≤ s := by
  simp only [parseRange] at h
  split at h
  · split at h
    · split at h
      · rename_i s2 e2 hs2 he2
        cases h
        split at hs2
        · cases hs2
          exact le_refl 0
        · exact pyInt_nonneg (splitFirst_fst_not_mem '-' _) hs2
      · cases h
    · cases h
  · cases h

/-! ### Lemmas about the two file-serving handlers -/

theorem handleRangeRequest_parsed {file : List Nat} {hdr : List Char}
    {s e : Int} (bud : Option Nat)
    (hp : parseRange hdr (file.length : Int) = .parsed s e) :
    handleRangeRequest file hdr bud =
      if s ≥ (file.length : Int) ∨ e ≥ (file.length : Int) ∨ s > e then
        .error 416
      else
        .ok 206 (e - s + 1) (some (s, e, (file.length : Int)))
          (sendChunksB file ((e - s + 1).toNat + 1) s.toNat (e - s + 1).toNat bud).1
          (sendChunksB file ((e - s + 1).toNat + 1) s.toNat (e - s + 1).toNat bud).2 := by
  simp only [handleRangeRequest, hp]

theorem handleRangeRequest_err416 {file : List Nat} {hdr : List Char}
    (bud : Option Nat)
    (hp : parseRange hdr (file.length : Int) = .notBytes
      ∨ parseRange hdr (file.length : Int) = .noDash) :
    handleRangeRequest file hdr bud = .error 416 := by
  rcases hp with hp | hp <;> simp only [handleRangeRequest, hp]

theorem handleRangeRequest_err500 {file : List Nat} {hdr : List Char}
    (bud : Option Nat)
    (hp : parseRange hdr (file.length : Int) = .valueError) :
    handleRangeRequest file hdr bud = .error 500 := by
  simp only [handleRangeRequest, hp]

/-- Full description of the no-disconnect whole-file response. -/
theorem handleNormalRequest_none (file : List Nat) :
    ∃ ws, handleNormalRequest file none = .ok 200 (file.length : Int) none ws false
      ∧ ws.flatten = file
      ∧ (file.length ≤ 1024 * 1024 → ws = [file])
      ∧ (1024 * 1024 < file.length →
          (∀ w ∈ ws, 0 < w.length ∧ w.length ≤ 65536)
          ∧ ∀ w ∈ ws.dropLast, w.length = 65536) := by
  by_cases h : file.length > 1024 * 1024
  · refine ⟨(sendAllB file (file.length + 1) 0 none).1, ?_, ?_, ?_, ?_⟩
    · simp only [handleNormalRequest, if_pos h, sendAllB_none_disc]
    · exact sendAllB_none_flatten file (file.length + 1) 0 (by omega)
    · omega
    · intro _
      exact ⟨fun w hw => sendAllB_sizes file _ _ _ w hw,
        fun w hw => sendAllB_dropLast_full file _ _ _ w hw⟩
  · refine ⟨[file], ?_, by simp, fun _ => rfl, by omega⟩
    simp only [handleNormalRequest, if_neg h]

/-- Whatever the budget, the whole-file handler always answers 200 with
the file size as `Content-Length`. -/
theorem handleNormalRequest_shape (file : List Nat) (bud : Option Nat) :
    ∃ ws d, handleNormalRequest file bud = .ok 200 (file.length : Int) none ws d := by
  by_cases h : file.length > 1024 * 1024
  · exact ⟨(sendAllB file (file.length + 1) 0 bud).1,
      (sendAllB file (file.length + 1) 0 bud).2,
      by simp only [handleNormalRequest, if_pos h]⟩
  · match bud with
    | some 0 => exact ⟨[], true, by simp only [handleNormalRequest, if_neg h]⟩
    | some (k + 1) => exact ⟨[file], false, by simp only [handleNormalRequest, if_neg h]⟩
    | none => exact ⟨[file], false, by simp only [handleNormalRequest, if_neg h]⟩

/-- A disconnect after `k` successful writes truncates the whole-file
response to its first `k` writes and sets the disconnect flag exactly when
writes were cut off. -/
theorem handleNormalRequest_budget (file : List Nat) (k : Nat)
    (ws : List (List Nat))
    (h : handleNormalRequest file none = .ok 200 (file.length : Int) none ws false) :
    handleNormalRequest file (some k)
      = .ok 200 (file.length : Int) none (ws.take k) (decide (k < ws.length)) := by
  by_cases hbig : file.length > 1024 * 1024
  · simp only [handleNormalRequest, if_pos hbig] at h ⊢
    simp only [HandlerResult.ok.injEq, true_and] at h
    obtain ⟨h1, _⟩ := h
    rw [sendAllB_budget, h1]
  · simp only [handleNormalRequest, if_neg hbig] at h ⊢
    match hb : k with
    | 0 =>
      simp only [HandlerResult.ok.injEq, true_and] at h
      obtain ⟨h1, _⟩ := h
      subst h1
      simp
    | k + 1 =>
      simp only [HandlerResult.ok.injEq, true_and] at h
      obtain ⟨h1, _⟩ := h
      subst h1
      simp

/-- A disconnect after `k` successful writes truncates a 206 range
response to its first `k` writes and sets the disconnect flag exactly when
writes were cut off. -/
theorem handleRangeRequest_budget (file : List Nat) (hdr : List Char)
    (k : Nat) (cl : Int) (cr : Option (Int × Int × Int)) (ws : List (List Nat))
    (h : handleRangeRequest file hdr none = .ok 206 cl cr ws false) :
    handleRangeRequest file hdr (some k)
      = .ok 206 cl cr (ws.take k) (decide (k < ws.length)) := by
  rcases hp : parseRange hdr (file.length : Int) with _ | _ | _ | ⟨s, e⟩
  · rw [handleRangeRequest_err416 none (Or.inl hp)] at h
    cases h
  · rw [handleRangeRequest_err416 none (Or.inr hp)] at h
    cases h
  · rw [handleRangeRequest_err500 none hp] at h
    cases h
  · rw [handleRangeRequest_parsed none hp] at h
    rw [handleRangeRequest_parsed (some k) hp]
    split at h
    · cases h
    · rename_i hcond
      rw [if_neg hcond]
      simp only [HandlerResult.ok.injEq, true_and] at h
      obtain ⟨h1, h2, h3, _⟩ := h
      subst h1
      subst h2
      subst h3
      rw [sendChunksB_budget]

/-! ### Claim theorems -/

/-- Claim C1: for every file and every Range header of the form
`bytes=start-end` with `0 ≤ start ≤ end < file_size` on a file with a
recognized video extension, the server responds 206 with `Content-Length`
equal to `end - start + 1`, a `Content-Range` of
`bytes start-end/file_size`, and a body equal to the exact byte slice
`[start, end]` of the file, transferred by seeking to `start` and writing
nonempty chunks of at most 8 KiB (all but the last exactly 8 KiB). -/
theorem claim_C1_range_serves_exact_slice (path : List Char)
    (file : List Nat) (s e : Nat) (hv : isVideoExt path = true)
    (hse : s ≤ e) (he : e < file.length) :
    ∃ ws,
      serveFileWithRange path file (some (mkRangeHeader s e)) none
        = .ok 206 ((e : Int) - (s : Int) + 1)
            (some ((s : Int), (e : Int), (file.length : Int))) ws false
      ∧ ws.flatten = (file.drop s).take (e - s + 1)
      ∧ ws.flatten.length = e - s + 1
      ∧ (∀ w ∈ ws, 0 < w.length ∧ w.length ≤ 8192)
      ∧ (∀ w ∈ ws.dropLast, w.length = 8192) := by
  have hserve : serveFileWithRange path file (some (mkRangeHeader s e)) none
      = handleRangeRequest file (mkRangeHeader s e) none := by
    show (if mkRangeHeader s e ≠ [] ∧ isVideoExt path = true
        then handleRangeRequest file (mkRangeHeader s e) none
        else handleNormalRequest file none)
      = handleRangeRequest file (mkRangeHeader s e) none
    rw [if_pos ⟨by simp [mkRangeHeader], hv⟩]
  have hpr := parseRange_mkRangeHeader s e (file.length : Int)
  have hrun := handleRangeRequest_parsed none hpr
  rw [if_neg (by omega)] at hrun
  have hsnat : ((s : Int)).toNat = s := by omega
  have hremnat : ((e : Int) - (s : Int) + 1).toNat = e - s + 1 := by omega
  rw [hsnat, hremnat] at hrun
  refine ⟨(sendChunksB file (e - s + 1 + 1) s (e - s + 1) none).1, ?_, ?_, ?_, ?_, ?_⟩
  · rw [hserve, hrun, sendChunksB_none_disc]
  · exact sendChunksB_none_flatten file (e - s + 1 + 1) s (e - s + 1) (by omega)
  · rw [sendChunksB_none_flatten file (e - s + 1 + 1) s (e - s + 1) (by omega)]
    rw [List.length_take, List.length_drop]
    omega
  · exact fun w hw => sendChunksB_sizes file _ _ _ _ w hw
  · exact fun w hw => sendChunksB_dropLast_full file _ _ _ _ (by omega) w hw

/-- Claim C1 witness: range 1-2 of a 4-byte `.mp4` file. -/
theorem claim_C1_range_serves_exact_slice_witness :
    ∃ ws,
      serveFileWithRange (("v.mp4").toList) [10, 11, 12, 13]
          (some (mkRangeHeader 1 2)) none
        = .ok 206 (((2 : Nat) : Int) - ((1 : Nat) : Int) + 1)
            (some (((1 : Nat) : Int), ((2 : Nat) : Int),
              (([10, 11, 12, 13] : List Nat).length : Int))) ws false
      ∧ ws.flatten = (([10, 11, 12, 13] : List Nat).drop 1).take (2 - 1 + 1)
      ∧ ws.flatten.length = 2 - 1 + 1
      ∧ (∀ w ∈ ws, 0 < w.length ∧ w.length ≤ 8192)
      ∧ (∀ w ∈ ws.dropLast, w.length = 8192) :=
  claim_C1_range_serves_exact_slice (("v.mp4").toList) [10, 11, 12, 13] 1 2
    (by decide) (by decide) (by decide)

/-- Claim C2: a parsed range `(start, end)` against a file of size
`file_size` is answered 416 (with no file bytes) exactly when
`start ≥ file_size`, `end ≥ file_size`, or `start > end`; otherwise the
range is accepted and a 206 partial-content response is produced. -/
theorem claim_C2_validation_iff_416 (file : List Nat) (hdr : List Char)
    (bud : Option Nat) (s e : Int)
    (hp : parseRange hdr (file.length : Int) = .parsed s e) :
    (handleRangeRequest file hdr bud = .error 416
        ↔ (s ≥ (file.length : Int) ∨ e ≥ (file.length : Int) ∨ s > e))
    ∧ (¬(s ≥ (file.length : Int) ∨ e ≥ (file.length : Int) ∨ s > e) →
        ∃ cl cr ws d, handleRangeRequest file hdr bud = .ok 206 cl cr ws d) := by
  have hrun := handleRangeRequest_parsed bud hp
  refine ⟨⟨?_, ?_⟩, ?_⟩
  · intro h416
    by_contra hcond
    rw [if_neg hcond] at hrun
    rw [hrun] at h416
    cases h416
  · intro hcond
    rw [if_pos hcond] at hrun
    exact hrun
  · intro hcond
    rw [if_neg hcond] at hrun
    exact ⟨_, _, _, _, hrun⟩

/-- Claim C2 witness: `bytes=0-5` on a 3-byte file is rejected 416. -/
theorem claim_C2_validation_iff_416_witness :
    handleRangeRequest [10, 11, 12] (("bytes=0-5").toList) none = .error 416 :=
  ((claim_C2_validation_iff_416 [10, 11, 12] (("bytes=0-5").toList) none 0 5
    (by decide)).1).mpr (by right; left; decide)

/-- Claim C3: a missing start token defaults to 0 and a missing end token
defaults to `file_size - 1`; in particular `bytes=100-` on a 1000-byte
file gives range 100-999 and `bytes=-100` parses as `(0, 100)`, not as the
last 100 bytes. -/
theorem claim_C3_defaults (size : Int) (a b : List Char) (sv ev : Int) :
    (a ≠ [] → '-' ∉ a → ',' ∉ a → pyInt a = some sv →
        parseRange (("bytes=").toList ++ (a ++ ['-'])) size = .parsed sv (size - 1))
    ∧ (b ≠ [] → ',' ∉ b → pyInt b = some ev →
        parseRange (("bytes=").toList ++ ('-' :: b)) size = .parsed 0 ev)
    ∧ parseRange (("bytes=100-").toList) 1000 = .parsed 100 999
    ∧ parseRange (("bytes=-100").toList) 1000 = .parsed 0 100 := by
  refine ⟨?_, ?_, by decide, by decide⟩
  · intro hne hdash hcomma hp
    exact parseRange_explicit size a [] sv (size - 1) hdash hcomma (by simp)
      (by rw [if_neg hne]; exact hp) (by simp)
  · intro hne hcomma hp
    have := parseRange_explicit size [] b 0 ev (by simp) (by simp) hcomma
      (by simp) (by rw [if_neg hne]; exact hp)
    simpa using this

/-- Claim C3 witness: concrete instances of both default rules. -/
theorem claim_C3_defaults_witness :
    parseRange (("bytes=").toList ++ (("100").toList ++ ['-'])) 1000
        = .parsed 100 999
    ∧ parseRange (("bytes=").toList ++ ('-' :: ("100").toList)) 1000
        = .parsed 0 100 := by
  constructor
  · have h := (claim_C3_defaults 1000 (("100").toList) (("9").toList) 100 9).1
      (by decide) (by decide) (by decide) (by decide)
    exact h
  · have h := (claim_C3_defaults 1000 (("9").toList) (("100").toList) 9 100).2.1
      (by decide) (by decide) (by decide)
    exact h

/-- Claim C4 counterexample: `bytes=abc-def` has the `bytes=` prefix and a
`-` separator but non-numeric tokens; `int()` raises `ValueError`, which
the handler's catch-all answers with 500, not 416. -/
theorem claim_C4_counterexample :
    parseRange (("bytes=abc-def").toList) 1 = .valueError
    ∧ handleRangeRequest [0] (("bytes=abc-def").toList) none = .error 500
    ∧ handleRangeRequest [0] (("bytes=abc-def").toList) none ≠ .error 416 := by
  refine ⟨by decide, by decide, by decide⟩

/-- Claim C4 (amended): a header without the `bytes=` prefix, or whose
first comma-separated range token contains no `-`, is rejected 416; but a
present start or end token that is not a well-formed number (for example
`bytes=abc-def`, or a second `-` inside the end token) raises `ValueError`
and is answered 500, never 416. -/
theorem claim_C4_malformed_amended (file : List Nat) (hdr : List Char)
    (bud : Option Nat) :
    (("bytes=").toList.isPrefixOf hdr = false →
        handleRangeRequest file hdr bud = .error 416)
    ∧ (("bytes=").toList.isPrefixOf hdr = true →
        ((hdr.drop 6).takeWhile (fun c => decide (c ≠ ','))).contains '-' = false →
        handleRangeRequest file hdr bud = .error 416)
    ∧ (parseRange hdr (file.length : Int) = .valueError →
        handleRangeRequest file hdr bud = .error 500) := by
  refine ⟨?_, ?_, ?_⟩
  · intro h
    refine handleRangeRequest_err416 bud (Or.inl ?_)
    rw [parseRange_eq]
    rw [if_neg (by rw [h]; simp)]
  · intro h1 h2
    refine handleRangeRequest_err416 bud (Or.inr ?_)
    rw [parseRange_eq]
    rw [if_pos h1, if_neg (by rw [h2]; simp)]
  · exact handleRangeRequest_err500 bud

/-- Claim C4 witness: a missing prefix and a missing dash both draw 416,
and a concrete `ValueError` draws 500. -/
theorem claim_C4_malformed_amended_witness :
    handleRangeRequest [0] (("bits=0-1").toList) none = .error 416
    ∧ handleRangeRequest [0] (("bytes=5").toList) none = .error 416
    ∧ handleRangeRequest [0] (("bytes=1-2-3").toList) none = .error 500 := by
  refine ⟨?_, ?_, ?_⟩
  · exact (claim_C4_malformed_amended [0] (("bits=0-1").toList) none).1 (by decide)
  · exact (claim_C4_malformed_amended [0] (("bytes=5").toList) none).2.1
      (by decide) (by decide)
  · exact (claim_C4_malformed_amended [0] (("bytes=1-2-3").toList) none).2.2
      (by decide)

/-- Claim C5 counterexample: the decoded form of `/%2e%2e/x` contains
`..`, yet the handler does not answer 403 — the literal substring check
runs on the undecoded path, and the request proceeds to the filesystem
(its outcome depends on `fs`). -/
theorem claim_C5_counterexample :
    containsSub (("..").toList) (percentDecode (("/%2e%2e/x").toList)) = true
    ∧ doGet (("/%2e%2e/x").toList) fsEmpty none none = .notFound
    ∧ doGet (("/%2e%2e/x").toList) fsHidden none none
        = .served (("%2e%2e/x").toList) (.ok 200 1 none [[9]] false)
    ∧ doGet (("/%2e%2e/x").toList) fsEmpty none none ≠ .forbidden := by
  refine ⟨by decide, by decide, by decide, by decide⟩

/-- Claim C5 (amended): for a request target on which `urlparse` returns
normally (here: all-ASCII and bracket-free, ruling out its `ValueError`
paths, which `do_GET` does not turn into a 403), if the path component
`urlparse` extracts — with scheme, netloc, params, query and fragment
split off but **no** percent-decoding — still contains the literal
substring `..` after stripping leading slashes, the request is answered
403, and the outcome is the same for every filesystem (no filesystem
access can influence it). -/
theorem claim_C5_traversal_amended (rawPath : List Char) (fs : Fs)
    (rng : Option (List Char)) (bud : Option Nat)
    (hascii : ∀ c ∈ rawPath, c.toNat < 128)
    (hbracket : '[' ∉ rawPath ∧ ']' ∉ rawPath)
    (h : containsSub (("..").toList) (lstripSlash (urlPath rawPath)) = true) :
    doGet rawPath fs rng bud = .forbidden := by
  simp only [doGet, h]
  rfl

/-- Claim C5 witness: a literal `..` path is forbidden on any filesystem. -/
theorem claim_C5_traversal_amended_witness :
    doGet (("/a/../b").toList) fsHidden none none = .forbidden :=
  claim_C5_traversal_amended (("/a/../b").toList) fsHidden none none
    (by decide) (by decide) (by decide)

/-- Claim C6: with no applicable range the server answers 200 with
`Content-Length` equal to the file size and the whole file as body; files
of at most 1 MiB go out as a single write, larger files in nonempty chunks
of at most 64 KiB, all but the last exactly 64 KiB. -/
theorem claim_C6_normal_request (file : List Nat) :
    ∃ ws, handleNormalRequest file none
        = .ok 200 (file.length : Int) none ws false
      ∧ ws.flatten = file
      ∧ (file.length ≤ 1024 * 1024 → ws = [file])
      ∧ (1024 * 1024 < file.length →
          (∀ w ∈ ws, 0 < w.length ∧ w.length ≤ 65536)
          ∧ ∀ w ∈ ws.dropLast, w.length = 65536) :=
  handleNormalRequest_none file

/-- Claim C6 witness: a 2-byte file goes out as one write. -/
theorem claim_C6_normal_request_witness :
    ∃ ws, handleNormalRequest [7, 8] none
        = .ok 200 (([7, 8] : List Nat).length : Int) none ws false
      ∧ ws.flatten = [7, 8]
      ∧ (([7, 8] : List Nat).length ≤ 1024 * 1024 → ws = [[7, 8]])
      ∧ (1024 * 1024 < ([7, 8] : List Nat).length →
          (∀ w ∈ ws, 0 < w.length ∧ w.length ≤ 65536)
          ∧ ∀ w ∈ ws.dropLast, w.length = 65536) :=
  claim_C6_normal_request [7, 8]

/-- Claim C7: a client disconnect after `k` successful body writes —
ranged or whole-file — aborts the transfer silently: the handler returns
with only those `k` writes performed, the disconnect flag set exactly when
writes were cut short, and the result is still the already-started 2xx
response, never a 500. -/
theorem claim_C7_disconnect_silent (file : List Nat) (hdr : List Char)
    (k : Nat) :
    (∀ cl cr ws, handleRangeRequest file hdr none = .ok 206 cl cr ws false →
        handleRangeRequest file hdr (some k)
          = .ok 206 cl cr (ws.take k) (decide (k < ws.length)))
    ∧ (∀ ws, handleNormalRequest file none
          = .ok 200 (file.length : Int) none ws false →
        handleNormalRequest file (some k)
          = .ok 200 (file.length : Int) none (ws.take k) (decide (k < ws.length))) :=
  ⟨fun cl cr ws h => handleRangeRequest_budget file hdr k cl cr ws h,
    fun ws h => handleNormalRequest_budget file k ws h⟩

/-- Claim C7 witness: disconnect before the first write of a 3-byte range
and of a 3-byte whole file. -/
theorem claim_C7_disconnect_silent_witness :
    handleRangeRequest [10, 11, 12] (("bytes=0-2").toList) (some 0)
        = .ok 206 3 (some (0, 2, 3)) ([[10, 11, 12]].take 0)
            (decide (0 < ([[10, 11, 12]] : List (List Nat)).length))
    ∧ handleNormalRequest [10, 11, 12] (some 0)
        = .ok 200 (([10, 11, 12] : List Nat).length : Int) none
            ([[10, 11, 12]].take 0)
            (decide (0 < ([[10, 11, 12]] : List (List Nat)).length)) :=
  ⟨(claim_C7_disconnect_silent [10, 11, 12] (("bytes=0-2").toList) 0).1
      3 (some (0, 2, 3)) [[10, 11, 12]] (by decide),
    (claim_C7_disconnect_silent [10, 11, 12] (("bytes=0-2").toList) 0).2
      [[10, 11, 12]] (by decide)⟩

/-- Claim C8: a GET for the empty path or `/` resolves to `index.html` at
the content root, and when that file exists it is served 200 with its full
content. -/
theorem claim_C8_root_index (rawPath : List Char) (fs : Fs)
    (hpath : rawPath = [] ∨ rawPath = ("/").toList)
    (hidx : fs.isFile (("index.html").toList) = true) :
    ∃ ws, doGet rawPath fs none none
        = .served (("index.html").toList)
            (.ok 200 ((fs.content (("index.html").toList)).length : Int)
              none ws false)
      ∧ ws.flatten = fs.content (("index.html").toList) := by
  obtain ⟨ws, hrun, hfl, _, _⟩ :=
    handleNormalRequest_none (fs.content (("index.html").toList))
  refine ⟨ws, ?_, hfl⟩
  have hfp : lstripSlash (urlPath rawPath) = [] := by
    rcases hpath with h | h <;> subst h <;> decide
  simp only [doGet, hfp]
  rw [if_pos (Or.inl trivial)]
  rw [if_pos hidx]
  rw [show serveFileWithRange (("index.html").toList)
        (fs.content (("index.html").toList)) none none
      = handleNormalRequest (fs.content (("index.html").toList)) none from rfl]
  rw [hrun]
  rw [if_neg (by decide)]

/-- Claim C8 witness: `/` on a root whose `index.html` holds two bytes. -/
theorem claim_C8_root_index_witness :
    ∃ ws, doGet (("/").toList) fsIndex none none
        = .served (("index.html").toList)
            (.ok 200 ((fsIndex.content (("index.html").toList)).length : Int)
              none ws false)
      ∧ ws.flatten = fsIndex.content (("index.html").toList) :=
  claim_C8_root_index (("/").toList) fsIndex (Or.inr rfl) (by decide)

/-- Claim C9: for a file whose name has no recognized video extension the
Range header is ignored entirely: the request takes the normal 200 path
(identical to having no Range header), so such a file is never answered
206 or 416. -/
theorem claim_C9_nonvideo_ignores_range (path : List Char) (file : List Nat)
    (rng : Option (List Char)) (bud : Option Nat)
    (h : isVideoExt path = false) :
    serveFileWithRange path file rng bud = handleNormalRequest file bud
    ∧ ∃ ws d, serveFileWithRange path file rng bud
        = .ok 200 (file.length : Int) none ws d := by
  have heq : serveFileWithRange path file rng bud
      = handleNormalRequest file bud := by
    match rng with
    | none => rfl
    | some hd =>
      show (if hd ≠ [] ∧ isVideoExt path = true
          then handleRangeRequest file hd bud
          else handleNormalRequest file bud) = handleNormalRequest file bud
      rw [if_neg (by simp [h])]
  exact ⟨heq, heq ▸ handleNormalRequest_shape file bud⟩

/-- Claim C9 witness: a Range header on a `.txt` file is ignored. -/
theorem claim_C9_nonvideo_ignores_range_witness :
    serveFileWithRange (("a.txt").toList) [5, 6]
        (some (("bytes=0-0").toList)) none
      = handleNormalRequest [5, 6] none
    ∧ ∃ ws d, serveFileWithRange (("a.txt").toList) [5, 6]
        (some (("bytes=0-0").toList)) none
      = .ok 200 (([5, 6] : List Nat).length : Int) none ws d :=
  claim_C9_nonvideo_ignores_range (("a.txt").toList) [5, 6]
    (some (("bytes=0-0").toList)) none (by decide)

/-- Claim C10: on a zero-byte video file every Range header that passes
the syntactic checks (so the parser produces a start/end pair) is rejected
416: start is never negative, so `start ≥ file_size = 0` always holds. -/
theorem claim_C10_empty_file_416 (hdr : List Char) (bud : Option Nat)
    (s e : Int) (hp : parseRange hdr 0 = .parsed s e) :
    handleRangeRequest ([] : List Nat) hdr bud = .error 416 := by
  have hs := parseRange_start_nonneg hp
  have h0 : ((([] : List Nat).length : Int)) = 0 := rfl
  have hrun := @handleRangeRequest_parsed ([] : List Nat) hdr s e bud
    (by rw [h0]; exact hp)
  rw [if_pos (Or.inl (by rw [h0]; exact hs))] at hrun
  exact hrun

/-- Claim C10 witness: `bytes=0-` on an empty file. -/
theorem claim_C10_empty_file_416_witness :
    handleRangeRequest ([] : List Nat) (("bytes=0-").toList) none = .error 416 :=
  claim_C10_empty_file_416 (("bytes=0-").toList) none 0 (-1) (by decide)

end ContentServer
